import Mathlib

/-!
Shallow embedding of the bounded-concurrency batch enrichment engine
(`pharma_crew.py`, `async_attendee_processor.py`, `async_web_search_tool.py`)
together with proofs of the specification's claims about it.

Conventions: Python strings are modelled as `String`/`List Char`; Python
exceptions become `Except String`; the external JSON parser (`json.loads`)
and the external remote calls are abstract parameters; regex substitution
(`re.sub`) is modelled by an explicit greedy scanner over the concrete
patterns appearing in the source.
-/

namespace ConferenceSpec

/-- Python `\s` whitespace class restricted to ASCII, as used by the
`re.sub` patterns and `str.strip` in `pharma_crew.py`. -/
def isPyWs (c : Char) : Bool :=
  c = ' ' || c = '\t' || c = '\n' || c = '\r' || c = '\x0b' || c = '\x0c'

/-- Consume the literal `pat` from the front of `cs`; return the rest on success. -/
def dropLit : List Char → List Char → Option (List Char)
  | [], cs => some cs
  | _ :: _, [] => none
  | p :: ps, c :: cs => if c = p then dropLit ps cs else none

/-- Atoms of the concrete regular expressions used by `clean_json_text`:
a literal, an optional literal (greedy), `\s*` and `\s+`. -/
inductive RegexAtom where
  | lit (s : List Char)
  | optLit (s : List Char)
  | ws0
  | ws1
deriving DecidableEq

/-- Greedy matcher for a sequence of atoms at the head of the input;
returns the unconsumed rest on success.  Greedy matching without
backtracking coincides with Python's semantics for the patterns in
`clean_json_text`, since in each of them a whitespace class is never
followed by an atom that can start with whitespace. -/
def matchAtoms : List RegexAtom → List Char → Option (List Char)
  | [], cs => some cs
  | .lit s :: rest, cs =>
      match dropLit s cs with
      | some cs2 => matchAtoms rest cs2
      | none => none
  | .optLit s :: rest, cs =>
      match dropLit s cs with
      | some cs2 => matchAtoms rest cs2
      | none => matchAtoms rest cs
  | .ws0 :: rest, cs => matchAtoms rest (cs.dropWhile isPyWs)
  | .ws1 :: rest, cs =>
      match cs with
      | [] => none
      | c :: cs2 => if isPyWs c then matchAtoms rest (cs2.dropWhile isPyWs) else none

/-- Fueled left-to-right non-overlapping replacement, the model of
`re.sub(pattern, repl, text)`.  Every pattern fed to it contains a
nonempty literal, so a match always consumes at least one character and
fuel `cs.length` suffices. -/
def replaceAllFuel (pat : List RegexAtom) (repl : List Char) :
    Nat → List Char → List Char
  | 0, cs => cs
  | _ + 1, [] => []
  | fuel + 1, c :: cs =>
      match matchAtoms pat (c :: cs) with
      | some rest => repl ++ replaceAllFuel pat repl fuel rest
      | none => c :: replaceAllFuel pat repl fuel cs

/-- Model of `re.sub(pattern, repl, text)` on character lists. -/
def replaceAll (pat : List RegexAtom) (repl : List Char) (cs : List Char) : List Char :=
  replaceAllFuel pat repl cs.length cs

/-- Model of Python `str.strip()` (ASCII whitespace). -/
def trimChars (cs : List Char) : List Char :=
  ((cs.dropWhile isPyWs).reverse.dropWhile isPyWs).reverse

/-- Pattern of `pharma_crew.py` line 30: three backticks, an optional
`json` tag, then any whitespace. -/
def fenceOpenPat : List RegexAtom :=
  [.lit "```".data, .optLit "json".data, .ws0]

/-- Pattern of `pharma_crew.py` line 31: any whitespace then three backticks. -/
def fenceClosePat : List RegexAtom :=
  [.ws0, .lit "```".data]

/-- Pattern of `pharma_crew.py` line 37: the alternation
`"Pharmaceutical" or "Healthcare" or "Other"` with `\s+` gaps. -/
def pharmaTriplePat : List RegexAtom :=
  [.lit "\"Pharmaceutical\"".data, .ws1, .lit "or".data, .ws1,
   .lit "\"Healthcare\"".data, .ws1, .lit "or".data, .ws1,
   .lit "\"Other\"".data]

/-- Pattern of `pharma_crew.py` line 38: the alternation
`"Pharma" or "Oncology" or "Women's Health" or "Organ Studies" or "Not a Lead"`. -/
def pharmaLeadPat : List RegexAtom :=
  [.lit "\"Pharma\"".data, .ws1, .lit "or".data, .ws1,
   .lit "\"Oncology\"".data, .ws1, .lit "or".data, .ws1,
   .lit "\"Women\x27s Health\"".data, .ws1, .lit "or".data, .ws1,
   .lit "\"Organ Studies\"".data, .ws1, .lit "or".data, .ws1,
   .lit "\"Not a Lead\"".data]

/-- Model of `clean_json_text` (`pharma_crew.py` lines 27-40): strip code
fences, strip outer whitespace, then collapse the two known ambiguous
enumerated alternations to their leftmost member. -/
def clean_json_text (s : String) : String :=
  let t1 := replaceAll fenceOpenPat [] s.data
  let t2 := replaceAll fenceClosePat [] t1
  let t3 := trimChars t2
  let t4 := replaceAll pharmaTriplePat "\"Pharmaceutical\"".data t3
  let t5 := replaceAll pharmaLeadPat "\"Pharma\"".data t4
  ⟨t5⟩

/-- Characters kept by the aggressive second-stage cleaning
`re.sub(r'[^\[\]\x7b\x7d",:a-zA-Z0-9_\-\s]', '', text)` of
`pharma_crew.py` line 358. -/
def isJsonRepairKeep (c : Char) : Bool :=
  c = '[' || c = ']' || c = '\x7b' || c = '\x7d' || c = '"' || c = ',' || c = ':' ||
  ('a' ≤ c && c ≤ 'z') || ('A' ≤ c && c ≤ 'Z') || ('0' ≤ c && c ≤ '9') ||
  c = '_' || c = '-' || isPyWs c

/-- Model of the aggressive cleaning pass: remove every character outside
the whitelist (a character-class `re.sub` is exactly a filter). -/
def aggressiveClean (s : String) : String :=
  ⟨s.data.filter isJsonRepairKeep⟩

/-- Model of the parse-repair-retry logic of `process_batch_async`
(`pharma_crew.py` lines 347-364), parametric in the external JSON parser
`parse` (`json.loads`, returning `none` on `JSONDecodeError`): parse the
cleaned text; on failure aggressively clean and retry once; on repeated
failure return zero records instead of raising. -/
def parseBatchResults {α : Type} (parse : String → Option (List α)) (raw : String) :
    List α :=
  match parse (clean_json_text raw) with
  | some rs => rs
  | none =>
      match parse (aggressiveClean (clean_json_text raw)) with
      | some rs => rs
      | none => []

/-- Decide whether `pat` occurs as a contiguous substring, the model of
Python's `in` operator on strings. -/
def containsSeq (pat : List Char) : List Char → Bool
  | [] => (dropLit pat []).isSome
  | c :: cs => (dropLit pat (c :: cs)).isSome || containsSeq pat cs

/-- Predicate of `pharma_crew.py` line 336: the specially-recognized
telemetry failure, detected by `"NoApiKeyException" in str(e) or
"AgentOps" in str(e)`. -/
def isTelemetryMsg (msg : String) : Bool :=
  containsSeq "NoApiKeyException".data msg.data || containsSeq "AgentOps".data msg.data

/-- Outcome of the classification step `crew.kickoff()`: either a raw text
blob or a raised exception carrying its message. -/
inductive ClassifyOutcome where
  | ok (raw : String)
  | exc (msg : String)
deriving DecidableEq

/-- Model of the inner `try/except` around `crew.kickoff()`
(`pharma_crew.py` lines 332-344): a telemetry failure is replaced by the
empty successful response `'[]'`; any other exception is re-raised. -/
def kickoffWithTelemetryGuard (co : ClassifyOutcome) : Except String String :=
  match co with
  | .ok raw => .ok raw
  | .exc msg => if isTelemetryMsg msg then .ok "[]" else .error msg

/-- Model of `process_batch_async` (`pharma_crew.py` lines 248-370) from
the classification step onwards: the guarded kickoff result is cleaned
and parsed; an exception escaping the guard is caught by the outer
`except`, which returns zero records. -/
def process_batch_async {α : Type} (parse : String → Option (List α))
    (co : ClassifyOutcome) : List α :=
  match kickoffWithTelemetryGuard co with
  | .ok raw => parseBatchResults parse raw
  | .error _ => []

/-- Attendee dictionary as consumed by `AsyncAttendeeProcessor.process_attendee`;
a missing key is the empty string, matching `attendee.get(key, '')`. -/
structure Attendee where
  first_name : String := ""
  last_name : String := ""
  organization : String := ""
  email : String := ""
deriving DecidableEq

/-- Enriched per-item outcome: the dictionary built by `process_attendee`
(`async_attendee_processor.py` lines 94-100 and 108-114). -/
structure EnrichedAttendee where
  person_name : String
  organization : String
  email : String
  company_domain : String
  search_result : String
deriving DecidableEq

/-- Characters after the last `'@'`, the value of Python's
`email.split('@')[-1]` when an `'@'` is present; `none` when absent. -/
def afterLastAt : List Char → Option (List Char)
  | [] => none
  | c :: rest =>
      match afterLastAt rest with
      | some tail => some tail
      | none => if c = '@' then some rest else none

/-- Model of `email.split('@')[-1] if '@' in email else ''`
(`async_attendee_processor.py` line 62). -/
def companyDomainRaw (email : String) : String :=
  ⟨(afterLastAt email.data).getD []⟩

/-- Derived domain on the success path (`async_attendee_processor.py`
line 98): `company_domain or "unknown.com"`. -/
def companyDomainOk (email : String) : String :=
  if companyDomainRaw email = "" then "unknown.com" else companyDomainRaw email

/-- Derived domain on the error path (`async_attendee_processor.py`
line 112): the split result when an `'@'` is present, else the sentinel. -/
def companyDomainErr (email : String) : String :=
  if containsSeq ['@'] email.data then companyDomainRaw email else "unknown.com"

/-- Model of the `person_name` computation of `process_attendee`
(lines 57-59): join first and last name, strip, fall back to `"Unknown"`. -/
def personNameOf (a : Attendee) : String :=
  let n : List Char := trimChars (a.first_name.data ++ ' ' :: a.last_name.data)
  if n = [] then "Unknown" else ⟨n⟩

/-- Model of `AsyncAttendeeProcessor.process_attendee`
(`async_attendee_processor.py` lines 39-114), parametric in the external
enrichment call (`search_tool.execute_async`), whose raised exception is
modelled by `Except.error`: on success the search text is returned, on an
exception a synthesized outcome carrying `"Error: "` plus the message is
returned instead of propagating the failure. -/
def process_attendee (enrich : Attendee → Except String String) (a : Attendee) :
    EnrichedAttendee :=
  match enrich a with
  | .ok res =>
      { person_name := personNameOf a
        organization := if a.organization = "" then "Unknown" else a.organization
        email := a.email
        company_domain := companyDomainOk a.email
        search_result := res }
  | .error e =>
      { person_name := personNameOf a
        organization := if a.organization = "" then "Unknown" else a.organization
        email := a.email
        company_domain := companyDomainErr a.email
        search_result := "Error: " ++ e }

/-- Model of `AsyncAttendeeProcessor.process_attendees`
(`async_attendee_processor.py` lines 116-152): one task per attendee run
under the semaphore, gathered by `asyncio.gather`, which returns results
in the order of its argument tasks, i.e. input order. -/
def process_attendees (enrich : Attendee → Except String String)
    (attendees : List Attendee) : List EnrichedAttendee :=
  attendees.map (process_attendee enrich)

/-- Model of `preprocess_attendees` (`pharma_crew.py` lines 68-88):
batch `i` is the slice `attendees[i*B : min(i*B+B, N)]`; `List.take`
clips at the end of the list exactly as the Python slice does. -/
def preprocess_attendees {α : Type} (attendees : List α) (B i : Nat) : List α :=
  (attendees.drop (i * B)).take B

/-- Model of the batch count `(N + B - 1) // B` computed at
`pharma_crew.py` line 470. -/
def totalBatches (N B : Nat) : Nat := (N + B - 1) / B

/-- Model of `PharmaCrew.process_batch` (`pharma_crew.py` lines 224-246):
run the whole per-batch pipeline, abstracted as `run`, and convert any
raised exception into zero records at the batch boundary. -/
def process_batch {α : Type} (run : Nat → Except String (List α)) (i : Nat) :
    List α :=
  match run i with
  | .ok rs => rs
  | .error _ => []

/-- Record count a batch contributes when it completed successfully, zero
when its pipeline raised. -/
def okRecordCount {α : Type} (run : Nat → Except String (List α)) (i : Nat) : Nat :=
  match run i with
  | .ok rs => rs.length
  | .error _ => 0

/-- Model of `PharmaCrew.analyze` (`pharma_crew.py` lines 450-519): every
batch index is submitted to the pool, and completed batch results are
appended to `all_results` under the lock in completion order `order`,
an arbitrary permutation of the submitted indices. -/
def analyze {α : Type} (run : Nat → Except String (List α)) (order : List Nat) :
    List α :=
  (order.map (process_batch run)).flatten

/-- Awaited actions of one per-item task, in program order. -/
inductive ItemAction where
  | acquirePermit
  | pacingDelay
  | runSearch
  | releasePermit
deriving DecidableEq

/-- Program-order action sequence of `process_with_semaphore`
(`async_attendee_processor.py` lines 134-139): enter `async with
semaphore` (acquire), then sleep `rate_limit_delay` when it is positive,
then run `process_attendee`, then release on scope exit. -/
def process_with_semaphore_actions (rate_limit_delay : ℚ) : List ItemAction :=
  ItemAction.acquirePermit ::
    ((if 0 < rate_limit_delay then [ItemAction.pacingDelay] else []) ++
      [ItemAction.runSearch, ItemAction.releasePermit])

/-- Concurrency configuration of one `analyze` run: pool width `W`
(`max_workers`), per-batch search cap `C` (`max_concurrent_searches`),
and number of batches `k`. -/
structure EngineConfig where
  W : Nat
  C : Nat
  k : Nat

/-- Scheduler events of a run: a pool slot starts or finishes a batch
pipeline, or a batch's fanout acquires or releases one search permit. -/
inductive PoolEvent where
  | startBatch (i : Nat)
  | acquire (i : Nat)
  | release (i : Nat)
  | endBatch (i : Nat)

/-- Instantaneous state of a run: the batches currently running in the
pool and, per batch, the number of in-flight enrichment calls. -/
structure PoolState where
  running : List Nat
  inFlight : Nat → Nat

/-- State before any event. -/
def initState : PoolState := ⟨[], fun _ => 0⟩

/-- Effect of one scheduler event on the state. -/
def applyEvent (s : PoolState) : PoolEvent → PoolState
  | .startBatch i => { s with running := i :: s.running }
  | .acquire i => { s with inFlight := fun j => if j = i then s.inFlight j + 1 else s.inFlight j }
  | .release i => { s with inFlight := fun j => if j = i then s.inFlight j - 1 else s.inFlight j }
  | .endBatch i => { s with running := s.running.erase i }

/-- Guard under which the scheduler may fire an event, transcribing the
source's synchronization: `ThreadPoolExecutor(max_workers=min(W, k))`
(`pharma_crew.py` line 493) admits a new batch only below that width;
`asyncio.Semaphore(C)` (`async_attendee_processor.py` line 132) admits a
new search only below `C` permits for that batch; `asyncio.gather`
lets a batch finish only when no search of it is in flight. -/
def eventOk (cfg : EngineConfig) (s : PoolState) : PoolEvent → Prop
  | .startBatch i => i < cfg.k ∧ i ∉ s.running ∧ s.running.length < min cfg.W cfg.k
  | .acquire i => i ∈ s.running ∧ s.inFlight i < cfg.C
  | .release i => i ∈ s.running ∧ 0 < s.inFlight i
  | .endBatch i => i ∈ s.running ∧ s.inFlight i = 0

/-- Traces reachable by the scheduler, with the state they reach. -/
inductive ValidTrace (cfg : EngineConfig) : List PoolEvent → PoolState → Prop
  | nil : ValidTrace cfg [] initState
  | snoc {es s e} : ValidTrace cfg es s → eventOk cfg s e →
      ValidTrace cfg (es ++ [e]) (applyEvent s e)

/-- Total number of item-level remote calls in flight across all batches. -/
def totalInFlight (s : PoolState) : Nat :=
  (s.running.map s.inFlight).sum

/-! Helper lemmas. -/

/-- Eta law for strings. -/
lemma string_mk_data (s : String) : String.mk s.data = s := rfl

/-- Absence of `'@'` makes the split-from-the-right fail. -/
lemma afterLastAt_eq_none (cs : List Char) (h : containsSeq ['@'] cs = false) :
    afterLastAt cs = none := by
  induction cs with
  | nil => rfl
  | cons c rest ih =>
    by_cases hc : c = '@'
    · exfalso
      simp [containsSeq, dropLit, hc] at h
    · simp only [containsSeq, dropLit, hc, if_false, Option.isSome_none,
        Bool.false_or] at h
      simp [afterLastAt, ih h, hc]

/-- Emails without an `'@'` get the sentinel domain. -/
lemma companyDomainOk_no_at (email : String) (h : containsSeq ['@'] email.data = false) :
    companyDomainOk email = "unknown.com" := by
  unfold companyDomainOk companyDomainRaw
  rw [afterLastAt_eq_none _ h]
  rfl

/-- C3 counterexample: the claim predicts domain `"acme"` (the substring
between `'@'` and the first `'.'`) for email `"x@acme.io"`, but
`process_attendee` keeps everything after the `'@'` and derives
`"acme.io"`. -/
theorem domain_first_dot_counterexample :
    (process_attendee (fun _ => Except.ok "searched")
        { first_name := "x", email := "x@acme.io" }).company_domain = "acme.io"
    ∧ ("acme.io" : String) ≠ "acme" := by
  exact ⟨rfl, by decide⟩

/-- C3 (amended): the derived `company_domain` of an item is everything in
its email after the last `'@'` (so `"x@acme.io"` yields `"acme.io"`, not
`"acme"`); when the email contains no `'@'`, or the part after the `'@'`
is empty, the sentinel `"unknown.com"` is used and no exception is
raised. -/
theorem domain_after_last_at (a : Attendee) (res : String) :
    (process_attendee (fun _ => Except.ok res) a).company_domain = companyDomainOk a.email
    ∧ (containsSeq ['@'] a.email.data = false → companyDomainOk a.email = "unknown.com")
    ∧ (∀ tail : List Char, afterLastAt a.email.data = some tail → tail ≠ [] →
        companyDomainOk a.email = String.mk tail)
    ∧ companyDomainOk "x@acme.io" = "acme.io" := by
  refine ⟨rfl, companyDomainOk_no_at _, ?_, by rfl⟩
  intro tail ht hne
  have hraw : companyDomainRaw a.email = String.mk tail := by
    unfold companyDomainRaw
    rw [ht]
    rfl
  unfold companyDomainOk
  rw [hraw, if_neg (fun hcon => hne (congrArg String.data hcon))]

/-- C3 witness: a concrete email with no `'@'` receives the sentinel. -/
theorem domain_after_last_at_witness :
    companyDomainOk "noatsign" = "unknown.com" :=
  (domain_after_last_at { email := "noatsign" } "r").2.1 (by rfl)

/-- C4: the item fanout yields exactly one outcome per input item, in
particular none is dropped and none is returned early, and an item whose
enrichment raises gets a synthesized outcome whose `search_result` is
`"Error: "` followed by the error text, instead of failing the batch. -/
theorem fanout_full_coverage_error_substitution
    (enrich : Attendee → Except String String) (attendees : List Attendee) :
    (process_attendees enrich attendees).length = attendees.length
    ∧ (∀ i : Nat, (process_attendees enrich attendees)[i]?
        = Option.map (process_attendee enrich) attendees[i]?)
    ∧ (∀ a e, enrich a = Except.error e →
        (process_attendee enrich a).search_result = "Error: " ++ e) := by
  refine ⟨by simp [process_attendees], fun i => by simp [process_attendees], ?_⟩
  intro a e he
  unfold process_attendee
  rw [he]

/-- C4 witness: a concrete throwing enrichment produces the synthesized
error outcome. -/
theorem fanout_error_substitution_witness :
    (process_attendee (fun _ => Except.error "boom") {}).search_result
      = "Error: " ++ "boom" :=
  (fanout_full_coverage_error_substitution (fun _ => Except.error "boom") []).2.2
    {} "boom" rfl

/-- C10: the fanout returns outcomes positionally, the i-th output being
the outcome of the i-th input attendee (`asyncio.gather` keeps argument
order), and the empty input returns the empty list. -/
theorem fanout_preserves_order (enrich : Attendee → Except String String)
    (attendees : List Attendee) :
    (∀ i : Nat, (process_attendees enrich attendees)[i]?
        = Option.map (process_attendee enrich) attendees[i]?)
    ∧ process_attendees enrich [] = [] :=
  ⟨fun i => by simp [process_attendees], rfl⟩

/-- C7 counterexample: an alternation of quoted enumerated literals that
is not one of the two hard-coded patterns passes through `clean_json_text`
unchanged, instead of collapsing to its leftmost value. -/
theorem generic_alternation_not_collapsed :
    clean_json_text "[\"A\" or \"B\" or \"C\"]" = "[\"A\" or \"B\" or \"C\"]"
    ∧ clean_json_text "[\"A\" or \"B\" or \"C\"]" ≠ "[\"A\"]" := by
  exact ⟨by rfl, by decide⟩

/-- C7 (amended): only the two alternations enumerated in the source are
collapsed, each to its leftmost listed value — `"Pharmaceutical" or
"Healthcare" or "Other"` to `"Pharmaceutical"` and `"Pharma" or
"Oncology" or "Women's Health" or "Organ Studies" or "Not a Lead"` to
`"Pharma"` — while fenced well-formed input is unwrapped and any other
alternation is left unchanged. -/
theorem known_alternations_collapsed :
    clean_json_text "[\x7b\"category\": \"Pharmaceutical\" or \"Healthcare\" or \"Other\"\x7d]"
      = "[\x7b\"category\": \"Pharmaceutical\"\x7d]"
    ∧ clean_json_text
        "[\x7b\"sub_category\": \"Pharma\" or \"Oncology\" or \"Women\x27s Health\" or \"Organ Studies\" or \"Not a Lead\"\x7d]"
      = "[\x7b\"sub_category\": \"Pharma\"\x7d]"
    ∧ clean_json_text "```json\n[\x7b\"x\":\"y\"\x7d]\n```" = "[\x7b\"x\":\"y\"\x7d]"
    ∧ clean_json_text "[\"A\" or \"B\" or \"C\"]" = "[\"A\" or \"B\" or \"C\"]" := by
  exact ⟨by rfl, by rfl, by rfl, by rfl⟩

/-- C8 counterexample: with the pacing delay `0.5` used by
`process_batch_async`, the task's action sequence acquires the permit
first and only then sleeps, so the delay does not precede the
acquisition as claimed. -/
theorem pacing_delay_after_acquire_counterexample :
    process_with_semaphore_actions (1 / 2)
      = [ItemAction.acquirePermit, ItemAction.pacingDelay, ItemAction.runSearch,
         ItemAction.releasePermit]
    ∧ ¬ (process_with_semaphore_actions (1 / 2)).indexOf ItemAction.pacingDelay
        < (process_with_semaphore_actions (1 / 2)).indexOf ItemAction.acquirePermit := by
  have h : process_with_semaphore_actions (1 / 2)
      = [ItemAction.acquirePermit, ItemAction.pacingDelay, ItemAction.runSearch,
         ItemAction.releasePermit] := by
    norm_num [process_with_semaphore_actions]
  refine ⟨h, ?_⟩
  rw [h]
  decide

/-- C8 (amended): for every positive pacing delay, each per-item task
first acquires the concurrency permit and then awaits the delay inside
the critical section, before the enrichment call; with a non-positive
delay the sleep is skipped. -/
theorem pacing_delay_inside_critical_section (d : ℚ) (hd : 0 < d) :
    process_with_semaphore_actions d
      = [ItemAction.acquirePermit, ItemAction.pacingDelay, ItemAction.runSearch,
         ItemAction.releasePermit] := by
  simp [process_with_semaphore_actions, hd]

/-- C8 witness: the amended statement at the concrete delay `0.5`. -/
theorem pacing_delay_inside_critical_section_witness :
    process_with_semaphore_actions (1 / 2)
      = [ItemAction.acquirePermit, ItemAction.pacingDelay, ItemAction.runSearch,
         ItemAction.releasePermit] :=
  pacing_delay_inside_critical_section (1 / 2) (by norm_num)

/-- C6: the repairer parses the cleaned text strictly; on failure it
filters out every character outside the whitelist `[ ] { } " , :`,
alphanumerics, `_`, `-` and whitespace and retries the strict parse
exactly once; when the retry also fails the batch yields zero records
instead of raising, and no partial records survive from either stage. -/
theorem repair_two_stage {α : Type} (parse : String → Option (List α)) (raw : String) :
    (∀ rs, parse (clean_json_text raw) = some rs → parseBatchResults parse raw = rs)
    ∧ (∀ rs, parse (clean_json_text raw) = none →
        parse (aggressiveClean (clean_json_text raw)) = some rs →
        parseBatchResults parse raw = rs)
    ∧ (parse (clean_json_text raw) = none →
        parse (aggressiveClean (clean_json_text raw)) = none →
        parseBatchResults parse raw = [])
    ∧ (∀ s : String, (aggressiveClean s).data = s.data.filter isJsonRepairKeep
        ∧ (∀ c ∈ (aggressiveClean s).data, isJsonRepairKeep c = true)
        ∧ ((∀ c ∈ s.data, isJsonRepairKeep c = true) → aggressiveClean s = s)) := by
  refine ⟨?_, ?_, ?_, ?_⟩
  · intro rs h1
    simp [parseBatchResults, h1]
  · intro rs h1 h2
    simp [parseBatchResults, h1, h2]
  · intro h1 h2
    simp [parseBatchResults, h1, h2]
  · intro s
    refine ⟨rfl, ?_, ?_⟩
    · intro c hc
      exact List.of_mem_filter hc
    · intro hall
      have : s.data.filter isJsonRepairKeep = s.data := List.filter_eq_self.mpr hall
      calc aggressiveClean s = String.mk (s.data.filter isJsonRepairKeep) := rfl
        _ = String.mk s.data := by rw [this]
        _ = s := string_mk_data s

/-- C6 witness: a parser that rejects both stages still yields zero
records for garbage input, without raising. -/
theorem repair_two_stage_witness :
    parseBatchResults (fun _ => (none : Option (List Nat))) "garbage &&&" = [] :=
  (repair_two_stage (fun _ => (none : Option (List Nat))) "garbage &&&").2.2.1 rfl rfl

/-- C5: a classification exception recognized as the telemetry failure is
replaced at the kickoff boundary by the empty successful response `'[]'`,
so the batch completes normally with zero records; every other
classification exception escapes the guard and is converted at the batch
boundary into zero records; in both cases `process_batch_async` returns
normally. -/
theorem batch_boundary_error_handling {α : Type} (parse : String → Option (List α))
    (msg : String) :
    (isTelemetryMsg msg = true →
        kickoffWithTelemetryGuard (.exc msg) = Except.ok "[]")
    ∧ (isTelemetryMsg msg = true → parse "[]" = some [] →
        process_batch_async parse (.exc msg) = [])
    ∧ (isTelemetryMsg msg = false →
        kickoffWithTelemetryGuard (.exc msg) = Except.error msg
        ∧ process_batch_async parse (.exc msg) = [])
    ∧ isTelemetryMsg "NoApiKeyException" = true
    ∧ isTelemetryMsg "AgentOps telemetry down" = true := by
  refine ⟨?_, ?_, ?_, by rfl, by rfl⟩
  · intro ht
    simp [kickoffWithTelemetryGuard, ht]
  · intro ht hp
    have hclean : clean_json_text "[]" = "[]" := rfl
    simp [process_batch_async, kickoffWithTelemetryGuard, ht, parseBatchResults,
      hclean, hp]
  · intro ht
    constructor
    · simp [kickoffWithTelemetryGuard, ht]
    · simp [process_batch_async, kickoffWithTelemetryGuard, ht]

/-- C5 witness: the guarded AgentOps failure at a parser accepting `'[]'`
yields a normally completed batch with zero records. -/
theorem batch_boundary_error_handling_witness :
    process_batch_async (fun s => if s = "[]" then some ([] : List Nat) else none)
      (.exc "AgentOps telemetry down") = [] :=
  (batch_boundary_error_handling
      (fun s => if s = "[]" then some ([] : List Nat) else none)
      "AgentOps telemetry down").2.1 rfl (by rfl)

/-- Concatenating the first `n` planned batches recovers the first `n * B`
items of the input. -/
lemma flatten_batches_take {α : Type} (B : Nat) (xs : List α) :
    ∀ n : Nat, ((List.range n).map (preprocess_attendees xs B)).flatten = xs.take (n * B)
  | 0 => by simp
  | n + 1 => by
    rw [List.range_succ, List.map_append, List.flatten_append,
      flatten_batches_take B xs n]
    simp [preprocess_attendees, Nat.succ_mul, List.take_add]

/-- Value of the planned batch count in terms of division and remainder. -/
lemma totalBatches_eq_cases (N B : Nat) (hB : 0 < B) :
    totalBatches N B = if N % B = 0 then N / B else N / B + 1 := by
  have hdm : B * (N / B) + N % B = N := Nat.div_add_mod N B
  have hrB : N % B < B := Nat.mod_lt _ hB
  unfold totalBatches
  by_cases h0 : N % B = 0
  · have hN : N + B - 1 = B * (N / B) + (B - 1) := by omega
    have hd0 : (B - 1) / B = 0 := Nat.div_eq_of_lt (by omega)
    rw [hN, Nat.mul_add_div hB, hd0]
    simp [h0]
  · have hN : N + B - 1 = B * (N / B + 1) + (N % B - 1) := by
      rw [Nat.mul_add, Nat.mul_one]
      omega
    have hd0 : (N % B - 1) / B = 0 := Nat.div_eq_of_lt (by omega)
    rw [hN, Nat.mul_add_div hB, hd0]
    simp [h0]

/-- C2: the engine plans exactly `ceil(N / B)` batches; batch `i` is the
slice `attendees[i*B : min((i+1)*B, N)]`, so the planned batches partition
the input with no overlap and no gaps, every batch before the last has
size `B`, and the last batch of a nonempty input has size `N mod B`, or
`B` when `B` divides `N`. -/
theorem batch_planning_partitions {α : Type} (B : Nat) (hB : 0 < B) (xs : List α) :
    totalBatches xs.length B = xs.length ⌈/⌉ B
    ∧ xs.length ≤ totalBatches xs.length B * B
    ∧ (∀ m : Nat, xs.length ≤ m * B → totalBatches xs.length B ≤ m)
    ∧ ((List.range (totalBatches xs.length B)).map (preprocess_attendees xs B)).flatten
        = xs
    ∧ (∀ i : Nat, i + 1 < totalBatches xs.length B →
        (preprocess_attendees xs B i).length = B)
    ∧ (xs ≠ [] →
        (preprocess_attendees xs B (totalBatches xs.length B - 1)).length
          = if xs.length % B = 0 then B else xs.length % B) := by
  have hk : totalBatches xs.length B = xs.length ⌈/⌉ B :=
    (Nat.ceilDiv_eq_add_pred_div xs.length B).symm
  have hchar : ∀ m : Nat, totalBatches xs.length B ≤ m ↔ xs.length ≤ B * m := by
    intro m
    rw [hk]
    exact ceilDiv_le_iff_le_mul hB
  have hub : xs.length ≤ totalBatches xs.length B * B := by
    have h := (hchar (totalBatches xs.length B)).mp le_rfl
    rwa [Nat.mul_comm] at h
  have hmin : ∀ m : Nat, xs.length ≤ m * B → totalBatches xs.length B ≤ m := by
    intro m hm
    exact (hchar m).mpr (by rwa [Nat.mul_comm] at hm)
  have hsize : ∀ i : Nat,
      (preprocess_attendees xs B i).length = min B (xs.length - i * B) := by
    intro i
    simp [preprocess_attendees]
  refine ⟨hk, hub, hmin, ?_, ?_, ?_⟩
  · rw [flatten_batches_take]
    exact List.take_of_length_le hub
  · intro i hi
    have hlt : ¬ totalBatches xs.length B ≤ i + 1 := by omega
    have hstrict : ¬ xs.length ≤ B * (i + 1) := fun hc => hlt ((hchar (i + 1)).mpr hc)
    rw [hsize i]
    have : B * (i + 1) = i * B + B := by ring
    omega
  · intro hne
    have hN : 0 < xs.length := List.length_pos.mpr hne
    have hdm : B * (xs.length / B) + xs.length % B = xs.length := Nat.div_add_mod _ B
    have hrB : xs.length % B < B := Nat.mod_lt _ hB
    rw [hsize, totalBatches_eq_cases _ _ hB]
    by_cases h0 : xs.length % B = 0
    · have hq : 0 < xs.length / B := by
        rcases Nat.eq_zero_or_pos (xs.length / B) with h | h
        · rw [h, Nat.mul_zero] at hdm
          omega
        · exact h
      have hB_le : B ≤ B * (xs.length / B) :=
        Nat.le_mul_of_pos_right B hq
      have hmul : (xs.length / B - 1) * B = B * (xs.length / B) - B := by
        rw [Nat.sub_mul, Nat.one_mul, Nat.mul_comm]
      simp only [h0, if_true, if_pos]
      rw [hmul]
      omega
    · simp only [h0, if_false, if_neg]
      have : (xs.length / B + 1 - 1) * B = B * (xs.length / B) := by
        rw [Nat.add_sub_cancel, Nat.mul_comm]
      rw [this]
      omega

/-- C2 witness: the concrete scenario of seven items with batch size
three yields batches of sizes three, three and one that partition the
input. -/
theorem batch_planning_partitions_witness :
    ((List.range (totalBatches 7 3)).map
        (preprocess_attendees [0, 1, 2, 3, 4, 5, 6] 3)).flatten
      = [0, 1, 2, 3, 4, 5, 6] :=
  (batch_planning_partitions 3 (by decide) [0, 1, 2, 3, 4, 5, 6]).2.2.2.1

/-- Dropping an index whose summand is zero does not change a sum. -/
lemma sum_map_filter_ne {M : Type} [AddCommMonoid M] (g : Nat → M) (j : Nat)
    (hg : g j = 0) (l : List Nat) :
    ((l.filter (fun i => i ≠ j)).map g).sum = (l.map g).sum := by
  induction l with
  | nil => rfl
  | cons a t ih =>
    simp only [ne_eq, decide_not] at ih ⊢
    by_cases ha : a = j
    · subst ha
      simp [List.filter_cons, hg, ih]
    · simp [List.filter_cons, ha, ih]

/-- Multiset form of the aggregation, one summand per completed batch. -/
lemma coe_analyze {α : Type} (run : Nat → Except String (List α)) (order : List Nat) :
    (analyze run order : Multiset α)
      = (order.map (fun i => (process_batch run i : Multiset α))).sum := by
  unfold analyze
  induction order with
  | nil => rfl
  | cons a t ih =>
    rw [List.map_cons, List.flatten_cons, ← Multiset.coe_add, ih,
      List.map_cons, List.sum_cons]

/-- Length of a successful batch's contribution. -/
lemma process_batch_length {α : Type} (run : Nat → Except String (List α)) (i : Nat) :
    (process_batch run i).length = okRecordCount run i := by
  unfold process_batch okRecordCount
  cases run i <;> rfl

/-- C1: every record of the final aggregate comes from a batch whose
pipeline completed successfully; the aggregate's size is bounded by the
total records of successful batches; and when one batch's pipeline
raises, the run still aggregates — in any completion order — exactly the
records returned by the remaining batches. -/
theorem analyze_partial_failure_isolation {α : Type}
    (run : Nat → Except String (List α)) (k : Nat) (order : List Nat)
    (horder : order.Perm (List.range k)) :
    (∀ r ∈ analyze run order, ∃ i rs, i < k ∧ run i = Except.ok rs ∧ r ∈ rs)
    ∧ (analyze run order).length ≤ ((List.range k).map (okRecordCount run)).sum
    ∧ (∀ j e, run j = Except.error e →
        (analyze run order : Multiset α)
          = (((List.range k).filter (fun i => i ≠ j)).map
              (fun i => (process_batch run i : Multiset α))).sum) := by
  refine ⟨?_, ?_, ?_⟩
  · intro r hr
    rcases List.mem_flatten.mp hr with ⟨l, hl, hrl⟩
    rcases List.mem_map.mp hl with ⟨i, hio, rfl⟩
    have hik : i < k := List.mem_range.mp (horder.mem_iff.mp hio)
    cases hrun : run i with
    | ok rs =>
      refine ⟨i, rs, hik, hrun, ?_⟩
      simpa [process_batch, hrun] using hrl
    | error e =>
      rw [process_batch, hrun] at hrl
      simp at hrl
  · have hlen : (analyze run order).length = (order.map (okRecordCount run)).sum := by
      rw [analyze, List.length_flatten, List.map_map]
      congr 1
      exact List.map_congr_left fun i _ => process_batch_length run i
    rw [hlen]
    exact le_of_eq (horder.map (okRecordCount run)).sum_eq
  · intro j e hj
    have hg : ((process_batch run j : List α) : Multiset α) = 0 := by
      simp [process_batch, hj]
    calc (analyze run order : Multiset α)
        = (order.map (fun i => (process_batch run i : Multiset α))).sum :=
          coe_analyze run order
      _ = ((List.range k).map (fun i => (process_batch run i : Multiset α))).sum :=
          (horder.map _).sum_eq
      _ = (((List.range k).filter (fun i => i ≠ j)).map
              (fun i => (process_batch run i : Multiset α))).sum :=
          (sum_map_filter_ne _ j hg (List.range k)).symm

/-- C1 witness: three batches where batch 1 throws, completing in the
order 2, 0, 1, aggregate exactly the records of batches 0 and 2. -/
theorem analyze_partial_failure_isolation_witness :
    (analyze (fun i => if i = 1 then Except.error "boom" else Except.ok [i])
        [2, 0, 1] : Multiset Nat)
      = (((List.range 3).filter (fun i => i ≠ 1)).map
          (fun i => (process_batch
              (fun i => if i = 1 then Except.error "boom" else Except.ok [i]) i :
            Multiset Nat))).sum :=
  (analyze_partial_failure_isolation
      (fun i => if i = 1 then Except.error "boom" else Except.ok [i]) 3 [2, 0, 1]
      (by decide)).2.2 1 "boom" rfl

/-- Inductive invariant of the scheduler: running batches are distinct
and at most `min W k` many, each batch holds at most `C` permits, and a
batch that is not running holds none. -/
lemma validTrace_invariant (cfg : EngineConfig) (es : List PoolEvent) (s : PoolState)
    (h : ValidTrace cfg es s) :
    s.running.Nodup ∧ s.running.length ≤ min cfg.W cfg.k
      ∧ (∀ i, s.inFlight i ≤ cfg.C)
      ∧ (∀ i, i ∉ s.running → s.inFlight i = 0) := by
  induction h with
  | nil =>
    exact ⟨List.nodup_nil, by simp [initState], fun i => Nat.zero_le _, fun i _ => rfl⟩
  | snoc hv hok ih =>
    obtain ⟨hnodup, hlen, hcap, hzero⟩ := ih
    rename_i es' s' e
    cases e with
    | startBatch i =>
      obtain ⟨-, hnotin, hroom⟩ := hok
      refine ⟨List.nodup_cons.mpr ⟨hnotin, hnodup⟩, ?_, hcap, ?_⟩
      · simpa [applyEvent] using hroom
      · intro j hj
        exact hzero j (fun hmem => hj (List.mem_cons_of_mem i hmem))
    | acquire i =>
      obtain ⟨hin, hlt⟩ := hok
      refine ⟨hnodup, hlen, ?_, ?_⟩
      · intro j
        simp only [applyEvent]
        by_cases hji : j = i
        · subst hji
          rw [if_pos rfl]
          omega
        · simp only [if_neg hji]
          exact hcap j
      · intro j hj
        simp only [applyEvent]
        have hji : ¬ j = i := fun hcon => hj (hcon ▸ hin)
        simp only [if_neg hji]
        exact hzero j hj
    | release i =>
      obtain ⟨hin, hpos⟩ := hok
      refine ⟨hnodup, hlen, ?_, ?_⟩
      · intro j
        simp only [applyEvent]
        by_cases hji : j = i
        · subst hji
          rw [if_pos rfl]
          exact le_trans (Nat.sub_le _ _) (hcap j)
        · simp only [if_neg hji]
          exact hcap j
      · intro j hj
        simp only [applyEvent]
        have hji : ¬ j = i := fun hcon => hj (hcon ▸ hin)
        simp only [if_neg hji]
        exact hzero j hj
    | endBatch i =>
      obtain ⟨hin, hidle⟩ := hok
      refine ⟨hnodup.erase i, ?_, hcap, ?_⟩
      · exact le_trans ((List.erase_sublist i s'.running).length_le) hlen
      · intro j hj
        by_cases hji : j = i
        · exact hji ▸ hidle
        · by_cases hjr : j ∈ s'.running
          · exact absurd ((List.mem_erase_of_ne hji).mpr hjr) hj
          · exact hzero j hjr

/-- C9: along every reachable schedule, each batch's fanout holds at most
`C` permits, so at most `C` of its enrichment calls are in flight; at
most `W` batch pipelines run concurrently; and the total number of
in-flight item-level calls across all batches is at most `W * C`. -/
theorem pool_inflight_bounds (cfg : EngineConfig) (es : List PoolEvent) (s : PoolState)
    (h : ValidTrace cfg es s) :
    (∀ i, s.inFlight i ≤ cfg.C)
    ∧ s.running.length ≤ cfg.W
    ∧ totalInFlight s ≤ cfg.W * cfg.C := by
  obtain ⟨-, hlen, hcap, -⟩ := validTrace_invariant cfg es s h
  have hW : s.running.length ≤ cfg.W := le_trans hlen (Nat.min_le_left _ _)
  refine ⟨hcap, hW, ?_⟩
  have hsum : (s.running.map s.inFlight).sum ≤ (s.running.map s.inFlight).length • cfg.C :=
    List.sum_le_card_nsmul _ _ (by
      intro x hx
      rcases List.mem_map.mp hx with ⟨i, -, rfl⟩
      exact hcap i)
  calc totalInFlight s ≤ (s.running.map s.inFlight).length • cfg.C := hsum
    _ = s.running.length * cfg.C := by rw [List.length_map, smul_eq_mul]
    _ ≤ cfg.W * cfg.C := Nat.mul_le_mul_right _ hW

/-- C9 witness: the bounds at the empty schedule of a two-worker,
three-permit, four-batch run. -/
theorem pool_inflight_bounds_witness :
    (∀ i, initState.inFlight i ≤ 3)
    ∧ initState.running.length ≤ 2
    ∧ totalInFlight initState ≤ 2 * 3 :=
  pool_inflight_bounds ⟨2, 3, 4⟩ [] initState ValidTrace.nil

end ConferenceSpec
